import Mathlib

/-!
Verification of the COVID-19-DATA dashboard's data pipeline
(`src/utils.js` alias `src/unnamed/part_000` / `part_001`, and
`src/App.js`).

JavaScript numbers are modelled as exact fractions extended with the
special values `Infinity`, `-Infinity` and `NaN`; IEEE-754 rounding of
finite arithmetic is abstracted away (all finite arithmetic is exact),
and the negative zero is identified with zero.  Fractions are kept
unnormalized (every theorem equates values produced by the same
arithmetic, so normalization is never needed) with an always-positive
denominator.  Locale-sensitive string comparison (`localeCompare`) is
modelled as code-point lexicographic comparison; the proved properties
depend only on it being a linear order, not on the exact collation.
-/

namespace Covid

/-- An exact fraction `n / (dp + 1)`: the denominator is stored minus
one, so it is positive by construction.  Fractions are not normalized;
equality of the representation is used only between values produced by
identical computations. -/
structure Frac where
  n : Int
  dp : ℕ
deriving DecidableEq, Repr

namespace Frac

/-- The (always positive) denominator. -/
def den (f : Frac) : ℕ := f.dp + 1

/-- Embed an integer. -/
def ofInt (i : Int) : Frac := ⟨i, 0⟩

/-- Embed a natural number. -/
def ofNat (m : ℕ) : Frac := ⟨(m : Int), 0⟩

/-- Fraction multiplication. -/
def mul (f g : Frac) : Frac := ⟨f.n * g.n, f.dp * g.dp + f.dp + g.dp⟩

/-- Fraction addition. -/
def add (f g : Frac) : Frac :=
  ⟨f.n * (g.den : Int) + g.n * (f.den : Int), f.dp * g.dp + f.dp + g.dp⟩

/-- Fraction negation. -/
def neg (f : Frac) : Frac := ⟨-f.n, f.dp⟩

/-- Fraction subtraction. -/
def sub (f g : Frac) : Frac := add f (neg g)

/-- Fraction division; meaningful only when `g` is nonzero (all uses
guard that case separately). -/
def div (f g : Frac) : Frac :=
  let m := f.n * (g.den : Int)
  let k := (f.den : Int) * g.n
  if k < 0 then ⟨-m, k.natAbs - 1⟩ else ⟨m, k.natAbs - 1⟩

/-- Strict order test `f < g` by cross multiplication. -/
def blt (f g : Frac) : Bool := f.n * (g.den : Int) < g.n * (f.den : Int)

/-- Order test `f ≤ g` by cross multiplication. -/
def ble (f g : Frac) : Bool := f.n * (g.den : Int) ≤ g.n * (f.den : Int)

/-- Zero test (the numerator is zero). -/
def isZero (f : Frac) : Bool := f.n = 0

/-- Negativity test. -/
def isNeg (f : Frac) : Bool := f.n < 0

/-- Positivity test. -/
def isPos (f : Frac) : Bool := 0 < f.n

/-- Floor of a fraction, as an integer (`Int.fdiv` rounds toward
negative infinity and the denominator is positive). -/
def floor (f : Frac) : Int := f.n.fdiv (f.den : Int)

theorem den_pos (f : Frac) : 0 < (f.den : Int) := by
  exact_mod_cast Nat.succ_pos f.dp

theorem sub_rev (f g : Frac) : sub g f = neg (sub f g) := by
  simp only [sub, add, neg, den, Frac.mk.injEq]
  constructor
  · ring
  · ring

end Frac

/-- Model of a JavaScript number: an exact fraction, or one of the three
special values `Infinity`, `-Infinity`, `NaN`. -/
inductive JSNum where
  | num (q : Frac)
  | inf
  | negInf
  | nan
deriving DecidableEq, Repr

namespace JSNum

/-- The JavaScript `isNaN` test on an already-converted number. -/
def isNaN : JSNum → Bool
  | .nan => true
  | _ => false

/-- The JavaScript `isFinite` test: true exactly on ordinary numbers. -/
def isFinite : JSNum → Bool
  | .num _ => true
  | _ => false

/-- JavaScript unary minus. -/
def neg : JSNum → JSNum
  | .num q => .num q.neg
  | .inf => .negInf
  | .negInf => .inf
  | .nan => .nan

/-- JavaScript subtraction `a - b` (after numeric coercion). -/
def sub : JSNum → JSNum → JSNum
  | .nan, _ => .nan
  | .num a, .num b => .num (a.sub b)
  | .num _, .inf => .negInf
  | .num _, .negInf => .inf
  | .num _, .nan => .nan
  | .inf, .num _ => .inf
  | .negInf, .num _ => .negInf
  | .inf, .inf => .nan
  | .inf, .negInf => .inf
  | .negInf, .inf => .negInf
  | .negInf, .negInf => .nan
  | .inf, .nan => .nan
  | .negInf, .nan => .nan

/-- JavaScript division `a / b`.  Division of a nonzero finite number by
zero yields a signed infinity (the sign of zero is not modelled, so a
zero divisor behaves as `+0`, exactly as in the pipeline where it comes
from the data field `popData2019 = 0`). -/
def div : JSNum → JSNum → JSNum
  | .nan, _ => .nan
  | .num a, .num b =>
    if b.isZero then (if a.isZero then .nan else if a.isPos then .inf else .negInf)
    else .num (a.div b)
  | .num _, .inf => .num (.ofInt 0)
  | .num _, .negInf => .num (.ofInt 0)
  | .num _, .nan => .nan
  | .inf, .num b => if b.isNeg then .negInf else .inf
  | .negInf, .num b => if b.isNeg then .inf else .negInf
  | .inf, .inf => .nan
  | .inf, .negInf => .nan
  | .negInf, .inf => .nan
  | .negInf, .negInf => .nan
  | .inf, .nan => .nan
  | .negInf, .nan => .nan

theorem sub_swap (a b : JSNum) : sub b a = neg (sub a b) := by
  cases a <;> cases b <;> try rfl
  exact congrArg JSNum.num (Frac.sub_rev _ _)

end JSNum

/-- Numeric value of a decimal digit character. -/
def digitVal (c : Char) : ℕ := c.toNat - 48

/-- Value of a list of decimal digit characters, most significant
first. -/
def digitsVal (cs : List Char) : ℕ :=
  cs.foldl (fun acc c => 10 * acc + digitVal c) 0

/-- Fraction denoted by an integer digit string and a fractional digit
string. -/
def decFrac (ip fp : List Char) : Frac :=
  ⟨(digitsVal ip : Int) * 10 ^ fp.length + (digitsVal fp : Int), 10 ^ fp.length - 1⟩

/-- JavaScript whitespace test (the common four characters; the exotic
whitespace code points do not occur in the repository's data). -/
def isJsWs (c : Char) : Bool := c = ' ' || c = '\t' || c = '\n' || c = '\r'

/-- Trim whitespace from both ends of a character list. -/
def trimChars (cs : List Char) : List Char :=
  ((cs.dropWhile isJsWs).reverse.dropWhile isJsWs).reverse

/-- Parse a complete unsigned decimal literal (`123`, `123.45`, `.45`,
`123.`); `none` when the characters are not exactly such a literal. -/
def parseUnsignedDec (cs : List Char) : Option Frac :=
  let p := cs.span Char.isDigit
  match p.2 with
  | [] => if p.1.isEmpty then none else some (decFrac p.1 [])
  | '.' :: rest2 =>
    let pf := rest2.span Char.isDigit
    if pf.2 ≠ [] then none
    else if p.1.isEmpty && pf.1.isEmpty then none
    else some (decFrac p.1 pf.1)
  | _ => none

/-- Parse a complete unsigned numeric literal: `Infinity` or a decimal
literal. -/
def parseUnsignedNum (cs : List Char) : Option JSNum :=
  if cs = "Infinity".data then some .inf
  else (parseUnsignedDec cs).map JSNum.num

/-- Model of the JavaScript `ToNumber` coercion on strings, as used by
the global `isNaN` and by subtraction on string operands: a trimmed
empty string is `0`, otherwise the whole trimmed string must be a signed
decimal literal or `Infinity` (hexadecimal and exponent forms of the
grammar are not modelled; no string of the repository's data uses
them). -/
def jsToNumber (s : String) : JSNum :=
  match trimChars s.data with
  | [] => .num (.ofInt 0)
  | '+' :: rest => (parseUnsignedNum rest).getD .nan
  | '-' :: rest => ((parseUnsignedNum rest).map JSNum.neg).getD .nan
  | cs => (parseUnsignedNum cs).getD .nan

/-- Longest unsigned decimal literal at the head of the characters,
ignoring everything after it; `none` when no digits are found at all. -/
def parseDecHead (cs : List Char) : Option Frac :=
  let p := cs.span Char.isDigit
  match p.2 with
  | '.' :: rest2 =>
    let pf := rest2.span Char.isDigit
    if p.1.isEmpty && pf.1.isEmpty then none
    else some (decFrac p.1 pf.1)
  | _ => if p.1.isEmpty then none else some (decFrac p.1 [])

/-- Head form of an unsigned numeric literal: leading `Infinity` or a
leading decimal literal. -/
def parseNumHead (cs : List Char) : Option JSNum :=
  if cs.take 8 = "Infinity".data then some .inf
  else (parseDecHead cs).map JSNum.num

/-- Model of the JavaScript `parseFloat`: parse the longest leading
numeric literal of the trimmed string, `NaN` when there is none
(exponent forms are not modelled). -/
def jsParseFloat (s : String) : JSNum :=
  match trimChars s.data with
  | '+' :: rest => (parseNumHead rest).getD .nan
  | '-' :: rest => ((parseNumHead rest).map JSNum.neg).getD .nan
  | cs => (parseNumHead cs).getD .nan

/-- Three-way code-point comparison of character lists, the model of
`localeCompare` (lexicographic; a proper non-empty extension wins). -/
def listCmp : List Char → List Char → Int
  | [], [] => 0
  | [], _ :: _ => -1
  | _ :: _, [] => 1
  | a :: as, b :: bs =>
    if a.toNat < b.toNat then -1
    else if b.toNat < a.toNat then 1
    else listCmp as bs

/-- Model of `String.prototype.localeCompare` as a three-way comparison
returning a negative, zero or positive integer: code-point lexicographic
order (the locale-sensitive collation is abstracted to a linear order,
which is all the verified properties use). -/
def strCmpJS (a b : String) : Int := listCmp a.data b.data

theorem listCmp_swap : ∀ as bs : List Char, listCmp bs as = -listCmp as bs := by
  intro as
  induction as with
  | nil => intro bs; cases bs <;> simp [listCmp]
  | cons a as ih =>
    intro bs
    cases bs with
    | nil => simp [listCmp]
    | cons b bs =>
      simp only [listCmp]
      rcases Nat.lt_trichotomy a.toNat b.toNat with h | h | h
      · simp [h, Nat.lt_asymm h]
      · simp [h, Nat.lt_irrefl, ih]
      · simp [h, Nat.lt_asymm h]

theorem charTN_inj {a b : Char} (h : a.toNat = b.toNat) : a = b := by
  apply Char.eq_of_val_eq
  apply UInt32.eq_of_toBitVec_eq
  first
  | exact BitVec.toNat_inj.mp h
  | exact BitVec.eq_of_toNat_eq h

theorem listCmp_eq_zero_iff : ∀ as bs : List Char, listCmp as bs = 0 ↔ as = bs := by
  intro as
  induction as with
  | nil => intro bs; cases bs <;> simp [listCmp]
  | cons a as ih =>
    intro bs
    cases bs with
    | nil => simp [listCmp]
    | cons b bs =>
      simp only [listCmp]
      rcases Nat.lt_trichotomy a.toNat b.toNat with h | h | h
      · simp [h]
        intro hab
        exact absurd (hab ▸ h) (Nat.lt_irrefl _)
      · simp [h, Nat.lt_irrefl, ih, charTN_inj h]
      · simp [Nat.lt_asymm h, h]
        intro hab
        exact absurd (hab ▸ h) (Nat.lt_irrefl _)

theorem listCmp_trans : ∀ as bs cs : List Char,
    listCmp as bs ≤ 0 → listCmp bs cs ≤ 0 → listCmp as cs ≤ 0 := by
  intro as
  induction as with
  | nil => intro bs cs _ _; cases cs <;> simp [listCmp]
  | cons a as ih =>
    intro bs cs h1 h2
    cases bs with
    | nil => simp [listCmp] at h1
    | cons b bs =>
      cases cs with
      | nil => simp [listCmp] at h2
      | cons c cs =>
        simp only [listCmp] at h1 h2 ⊢
        rcases Nat.lt_trichotomy a.toNat b.toNat with hab | hab | hab
        · rcases Nat.lt_trichotomy b.toNat c.toNat with hbc | hbc | hbc
          · have : a.toNat < c.toNat := Nat.lt_trans hab hbc
            simp [this]
          · have : a.toNat < c.toNat := hbc ▸ hab
            simp [this]
          · simp [Nat.lt_asymm hbc, hbc] at h2
        · rcases Nat.lt_trichotomy b.toNat c.toNat with hbc | hbc | hbc
          · have : a.toNat < c.toNat := hab ▸ hbc
            simp [this]
          · have hac : a.toNat = c.toNat := hab.trans hbc
            simp [hab, Nat.lt_irrefl] at h1
            simp [hbc, Nat.lt_irrefl] at h2
            simp [hac, Nat.lt_irrefl]
            exact ih bs cs h1 h2
          · simp [Nat.lt_asymm hbc, hbc] at h2
        · simp [Nat.lt_asymm hab, hab] at h1

theorem strCmpJS_swap (a b : String) : strCmpJS b a = -strCmpJS a b :=
  listCmp_swap a.data b.data

theorem strCmpJS_eq_zero_iff (a b : String) : strCmpJS a b = 0 ↔ a = b := by
  unfold strCmpJS
  rw [listCmp_eq_zero_iff]
  constructor
  · intro h
    cases a; cases b
    exact congrArg String.mk h
  · intro h; rw [h]

theorem strCmpJS_trans {a b c : String} (h1 : strCmpJS a b ≤ 0)
    (h2 : strCmpJS b c ≤ 0) : strCmpJS a c ≤ 0 :=
  listCmp_trans a.data b.data c.data h1 h2

/-- Decimal digit character of a value below ten. -/
def digitChar (m : ℕ) : Char := Char.ofNat (48 + m)

/-- Digits of a natural number, least significant first; the first
argument is fuel (any bound above the digit count works). -/
def natRevDigits : ℕ → ℕ → List Char
  | 0, _ => []
  | _ + 1, 0 => []
  | fuel + 1, m + 1 => digitChar ((m + 1) % 10) :: natRevDigits fuel ((m + 1) / 10)

/-- Decimal rendering of a natural number. -/
def natToString (m : ℕ) : String :=
  if m = 0 then "0" else String.mk (natRevDigits (m + 1) m).reverse

/-- Pad a digit string on the left with zeros up to width `d`. -/
def padZeros (d : ℕ) (s : String) : String :=
  String.mk (List.replicate (d - s.length) '0') ++ s

/-- The `toFixed` rendering of a nonnegative fraction with `d` digits
after the decimal point. -/
def toFixedPos (d : ℕ) (q : Frac) : String :=
  let n : ℕ := (Frac.floor ((q.mul (.ofNat (10 ^ d))).add ⟨1, 1⟩)).toNat
  natToString (n / 10 ^ d) ++ "." ++ padZeros d (natToString (n % 10 ^ d))

/-- Model of `Number.prototype.toFixed(d)` for `0 < d`: decimal string
with exactly `d` fractional digits, ties rounded away from zero (the
ECMAScript algorithm applied to the exact fraction). -/
def toFixed (d : ℕ) (q : Frac) : String :=
  if q.isNeg then "-" ++ toFixedPos d q.neg else toFixedPos d q

/-- The `toFixed` rendering of a general JavaScript number (the special
values render as their names). -/
def jsToFixed (d : ℕ) : JSNum → String
  | .num q => toFixed d q
  | .inf => "Infinity"
  | .negInf => "-Infinity"
  | .nan => "NaN"

example : toFixed 4 (.ofNat 15) = "15.0000" := by decide
example : toFixed 4 (Frac.div (.ofNat 31) (.ofNat 2)) = "15.5000" := by decide
example : toFixed 5 (Frac.div (.ofNat 1) (.ofNat 20000)) = "0.00005" := by decide
example : toFixed 4 (Frac.div (.ofNat 1) (.ofNat 2000)) = "0.0005" := by decide
example : jsToNumber "01" = .num ⟨1, 0⟩ := by decide
example : jsToNumber "" = .num (.ofInt 0) := by decide
example : jsToNumber "France" = .nan := by decide
example : jsToNumber "-12.5" = .num ⟨-125, 9⟩ := by decide
example : jsParseFloat "12abc" = .num ⟨12, 0⟩ := by decide
example : jsParseFloat "abc" = .nan := by decide
example : strCmpJS "10" "1a" < 0 := by decide

/-! ### The rate calculator `calculatePer1000` (src/unnamed/part_000, lines 8-33) -/

/-- The population field of a record handed to the rate calculator: a
JavaScript number, `null`, or absent (`undefined`). -/
inductive PopField where
  | val (v : JSNum)
  | nullv
  | undefv
deriving DecidableEq, Repr

/-- The fields of a record that `calculatePer1000` reads, each possibly
absent (`none` models a missing property, i.e. `undefined`). -/
structure CalcData where
  cases : Option JSNum
  deaths : Option JSNum
  popData2019 : PopField
deriving DecidableEq, Repr

/-- The result object of `calculatePer1000`: `numericValue` is always a
finite number in every branch of the source, so it is a plain
fraction. -/
structure CalcResult where
  numericValue : Frac
  displayValue : String
deriving DecidableEq, Repr

/-- The JavaScript strict comparison `value === 0` where `value` is a
possibly-absent number: true exactly when the value is a zero number
(`undefined` and the special values are never strictly equal to 0). -/
def isNumZero : Option JSNum → Bool
  | some (.num f) => f.isZero
  | _ => false

/-- ToNumber coercion of a possibly-absent field (an absent property
reads as `undefined`, which coerces to `NaN`). -/
def fieldToNum : Option JSNum → JSNum
  | none => .nan
  | some v => v

/-- ToNumber coercion of the population field (`null` coerces to 0,
`undefined` to `NaN`). -/
def popToNum : PopField → JSNum
  | .val v => v
  | .nullv => .num (.ofInt 0)
  | .undefv => .nan

/-- The literal `0.0001` of the source. -/
def tenThousandth : Frac := ⟨1, 9999⟩

/-- Embedding of `calculatePer1000` (src/unnamed/part_000 lines 8-33,
identical in src/unnamed/part_001 lines 1-19).  The argument is `none`
when the caller passes `undefined`; the source evaluates
`forDeaths ? data.deaths : data.cases` before its `!data` guard, so that
case throws a TypeError, modelled as `Except.error`. -/
def calculatePer1000 (data : Option CalcData) (forDeaths : Bool) :
    Except String CalcResult :=
  match data with
  | none => .error "TypeError: cannot read properties of undefined"
  | some d =>
    let value : Option JSNum := if forDeaths then d.deaths else d.cases
    if isNumZero value || d.popData2019 == .nullv then
      .ok ⟨.ofInt 0, "0"⟩
    else
      let per1000 : JSNum :=
        JSNum.div (fieldToNum value)
          (JSNum.div (popToNum d.popData2019) (.num (.ofInt 1000)))
      match per1000 with
      | .num q => .ok ⟨q, if q.blt tenThousandth then "<0.0001" else toFixed 4 q⟩
      | _ => .ok ⟨tenThousandth, "0"⟩

/-- C1: the claim states that `calculatePer1000` returns a result
without raising an exception for every input shape, and in particular
returns `{numericValue: 0, displayValue: "0"}` when the record is
absent.  The code contradicts this (and its own comment "Check if data
is undefined"): the field read `data.deaths` / `data.cases` is evaluated
before the `!data` guard, so an absent (`undefined`) record throws a
TypeError instead.  This theorem evaluates the embedded function at the
failing input, for both values of the `forDeaths` flag. -/
theorem c1_absent_record_throws :
    calculatePer1000 none false
        = .error "TypeError: cannot read properties of undefined" ∧
    calculatePer1000 none true
        = .error "TypeError: cannot read properties of undefined" :=
  ⟨rfl, rfl⟩

/-- C3: for every record whose selected count is a nonzero number and
whose population is the number zero, the computed rate is non-finite and
`calculatePer1000` returns numericValue `0.0001` with displayValue
`"0"`. -/
theorem c3_zero_population_sentinel (d : CalcData) (fd : Bool) (q z : Frac)
    (hv : (if fd then d.deaths else d.cases) = some (.num q))
    (hq : q.isZero = false)
    (hz : d.popData2019 = .val (.num z))
    (hz0 : z.isZero = true) :
    calculatePer1000 (some d) fd = .ok ⟨tenThousandth, "0"⟩ := by
  simp only [calculatePer1000]
  rw [hv, hz]
  have hcond : (isNumZero (some (.num q)) || (PopField.val (.num z) == .nullv)) = false := by
    simp [isNumZero, hq]
  rw [hcond]
  simp only [Bool.false_eq_true, if_false, fieldToNum, popToNum]
  have hz1000 : JSNum.div (.num z) (.num (.ofInt 1000))
      = .num (z.div (.ofInt 1000)) := by
    simp [JSNum.div, Frac.isZero, Frac.ofInt]
  rw [hz1000]
  have hzn : z.n = 0 := by simpa [Frac.isZero] using hz0
  have hzz : (z.div (.ofInt 1000)).isZero = true := by
    simp only [Frac.div, Frac.ofInt, Frac.den]
    split <;> simp [Frac.isZero, hzn]
  have houter : JSNum.div (.num q) (.num (z.div (.ofInt 1000)))
      = if q.isPos then .inf else .negInf := by
    simp [JSNum.div, hzz, hq]
  rw [houter]
  cases hqp : q.isPos <;> rfl

/-- C3 witness: a concrete record with 5 cases and population 0. -/
theorem c3_zero_population_sentinel_witness :
    calculatePer1000
        (some ⟨some (.num ⟨5, 0⟩), some (.num ⟨0, 0⟩), .val (.num ⟨0, 0⟩)⟩) false
      = .ok ⟨tenThousandth, "0"⟩ :=
  c3_zero_population_sentinel _ false ⟨5, 0⟩ ⟨0, 0⟩ rfl (by decide) rfl (by decide)

/-- C4: for every record with a nonzero selected count and non-null
population whose computed rate `count / (population / 1000)` is a finite
number `r`, `calculatePer1000` returns numericValue `r`, and the
displayValue is the literal `"<0.0001"` when `r < 0.0001` and otherwise
`r` rendered with exactly 4 digits after the decimal point
(`toFixed 4`). -/
theorem c4_small_rate_display (d : CalcData) (fd : Bool) (q r : Frac)
    (hv : (if fd then d.deaths else d.cases) = some (.num q))
    (hq : q.isZero = false)
    (hp : d.popData2019 ≠ .nullv)
    (hr : JSNum.div (.num q) (JSNum.div (popToNum d.popData2019) (.num (.ofInt 1000)))
        = .num r) :
    calculatePer1000 (some d) fd
      = .ok ⟨r, if r.blt tenThousandth then "<0.0001" else toFixed 4 r⟩ := by
  simp only [calculatePer1000]
  rw [hv]
  have hcond : (isNumZero (some (.num q)) || (d.popData2019 == .nullv)) = false := by
    simp [isNumZero, hq]
    exact hp
  rw [hcond]
  simp only [Bool.false_eq_true, if_false, fieldToNum]
  rw [hr]

/-- C4 witness: cases 1 with population 20,000,000 gives the rate
0.00005 < 0.0001 and display `"<0.0001"`; cases 1 with population
2,000,000 gives the rate 0.0005 displayed as `"0.0005"`. -/
theorem c4_small_rate_display_witness :
    calculatePer1000
        (some ⟨some (.num ⟨1, 0⟩), none, .val (.num ⟨20000000, 0⟩)⟩) false
      = .ok ⟨⟨1000, 19999999⟩, "<0.0001"⟩ ∧
    calculatePer1000
        (some ⟨some (.num ⟨1, 0⟩), none, .val (.num ⟨2000000, 0⟩)⟩) false
      = .ok ⟨⟨1000, 1999999⟩, "0.0005"⟩ := by
  constructor
  · have h := c4_small_rate_display
      ⟨some (.num ⟨1, 0⟩), none, .val (.num ⟨20000000, 0⟩)⟩ false
      ⟨1, 0⟩ ⟨1000, 19999999⟩ rfl (by decide) (by decide) (by decide)
    exact h.trans (congrArg Except.ok (by decide))
  · have h := c4_small_rate_display
      ⟨some (.num ⟨1, 0⟩), none, .val (.num ⟨2000000, 0⟩)⟩ false
      ⟨1, 0⟩ ⟨1000, 1999999⟩ rfl (by decide) (by decide) (by decide)
    exact h.trans (congrArg Except.ok (by decide))

/-! ### The aggregation pipeline of `fetchData` (src/App.js lines 118-274) -/

/-- A raw record of the external dataset, with the fields the pipeline
reads.  `cases` and `deaths` are integers in the dataset; `popData2019`
is a number or `null` (modelled as `none`). -/
structure RawRecord where
  countriesAndTerritories : String
  cases : Int
  deaths : Int
  dateRep : String
  popData2019 : Option Int
deriving DecidableEq, Repr

/-- A JavaScript value stored in a row field: a string, a number, or
`undefined`. -/
inductive JSVal where
  | str (s : String)
  | num (v : JSNum)
  | undefv
deriving DecidableEq, Repr

/-- Shorthand for a finite integer number value. -/
def jnum (i : Int) : JSVal := .num (.num (.ofInt i))

/-- One observation row of the table (the `newData` object of App.js
lines 168-181): `casesPer1000`/`deathsPer1000` are `toFixed(5)` strings
from creation; the stat fields initialized to the number 0 and later
overwritten by the backfills hold general JavaScript values. -/
structure Row where
  country : String
  cases : Int
  deaths : Int
  casesPer1000 : String
  deathsPer1000 : String
  date : String
  totalCases : JSVal
  totalDeaths : JSVal
  averageCases : JSVal
  averageDeaths : JSVal
  maxCases : JSVal
  maxDeaths : JSVal
deriving DecidableEq, Repr

/-- The `numericValue` of a rate computation; records of the dataset are
present objects, so `calculatePer1000` never throws on them and the
error default of this projection is never reached. -/
def calcNumeric : Except String CalcResult → Frac
  | .ok r => r.numericValue
  | .error _ => .ofInt 0

/-- View of a raw record as the argument object of `calculatePer1000`. -/
def toCalcData (r : RawRecord) : CalcData :=
  ⟨some (.num (.ofInt r.cases)), some (.num (.ofInt r.deaths)),
    match r.popData2019 with
    | some p => .val (.num (.ofInt p))
    | none => .nullv⟩

/-- The string `calculatePer1000(record, fd).numericValue.toFixed(5)`
(App.js lines 149-152). -/
def per1000String (r : RawRecord) (fd : Bool) : String :=
  toFixed 5 (calcNumeric (calculatePer1000 (some (toCalcData r)) fd))

/-- The `newData` object pushed for each record (App.js lines 168-185):
the stat fields start as the number 0. -/
def mkRow (r : RawRecord) : Row :=
  ⟨r.countriesAndTerritories, r.cases, r.deaths,
    per1000String r false, per1000String r true, r.dateRep,
    jnum 0, jnum 0, jnum 0, jnum 0, jnum 0, jnum 0⟩

/-- The `allData` array right after the first `records.forEach`. -/
def initRows (records : List RawRecord) : List Row := records.map mkRow

/-- Lookup in an insertion-ordered association list (a JavaScript object
used as a string-keyed dictionary). -/
def lookupA {α : Type} : List (String × α) → String → Option α
  | [], _ => none
  | (k, v) :: t, c => if k = c then some v else lookupA t c

/-- Property write on a JavaScript object: replace the value of an
existing key in place, otherwise append the new key (JavaScript objects
keep string keys in insertion order). -/
def updA {α : Type} : List (String × α) → String → α → List (String × α)
  | [], c, v => [(c, v)]
  | (k, w) :: t, c, v => if k = c then (k, v) :: t else (k, w) :: updA t c v

/-- One step of the per-country totals accumulation (App.js lines
154-166): the truthiness test `if (totalCases[country])` treats both a
missing key and an accumulated 0 as absent and then assigns `cases`
directly (which equals `0 + cases`, so the running sum is preserved). -/
def totalsStep (f : RawRecord → Int) (m : List (String × Int)) (r : RawRecord) :
    List (String × Int) :=
  let c := r.countriesAndTerritories
  match lookupA m c with
  | some t => if t ≠ 0 then updA m c (t + f r) else updA m c (f r)
  | none => updA m c (f r)

/-- The `totalCases` / `totalDeaths` dictionary produced by the first
`records.forEach` (instantiated with `f` projecting cases or deaths). -/
def totalsMap (f : RawRecord → Int) (records : List RawRecord) :
    List (String × Int) :=
  records.foldl (totalsStep f) []

/-- Value of the backfill read `totalCases[data.country]`: a missing key
reads as `undefined`. -/
def optIntVal : Option Int → JSVal
  | some t => jnum t
  | none => .undefv

/-- The totals backfill `allData.forEach(...)` (App.js lines 195-198). -/
def totalsBackfill (tc td : List (String × Int)) (rows : List Row) : List Row :=
  rows.map fun row =>
    { row with totalCases := optIntVal (lookupA tc row.country),
               totalDeaths := optIntVal (lookupA td row.country) }

/-- One step of the per-date grouping into `dailyData` (App.js lines
220-237): push the record's cases and deaths onto its date's lists,
creating the entry on first sight of the date string. -/
def dailyStep (m : List (String × (List Int × List Int))) (r : RawRecord) :
    List (String × (List Int × List Int)) :=
  match lookupA m r.dateRep with
  | some g => updA m r.dateRep (g.1 ++ [r.cases], g.2 ++ [r.deaths])
  | none => updA m r.dateRep ([r.cases], [r.deaths])

/-- The `dailyData` dictionary, keyed by the raw date string. -/
def dailyGroups (records : List RawRecord) :
    List (String × (List Int × List Int)) :=
  records.foldl dailyStep []

/-- Sum of an integer list (`reduce((sum, x) => sum + x, 0)`). -/
def listSum (l : List Int) : Int := l.foldl (· + ·) 0

/-- `Math.max(...l)`; the groups it is applied to are never empty (the
empty case would be `-Infinity` and is unreached, defaulted to 0). -/
def listMax : List Int → Int
  | [] => 0
  | h :: t => t.foldl max h

/-- The average string `(sum / length).toFixed(4)` of a group list
(App.js lines 246-247). -/
def avgString (l : List Int) : String :=
  jsToFixed 4 (JSNum.div (.num (.ofInt (listSum l))) (.num (.ofNat l.length)))

/-- The maximum string `Math.max(...).toFixed(4)` of a group list
(App.js lines 250-251). -/
def maxString (l : List Int) : String :=
  toFixed 4 (.ofInt (listMax l))

/-- Update of one row from its date group (App.js lines 253-261). -/
def applyDaily (cs ds : List Int) (row : Row) : Row :=
  { row with averageCases := .str (avgString cs),
             averageDeaths := .str (avgString ds),
             maxCases := .str (maxString cs),
             maxDeaths := .str (maxString ds) }

/-- The per-date backfill loop (App.js lines 241-262): for each date key
of `dailyData` in insertion order, every row carrying that date is
updated with the group's stats. -/
def dailyBackfill (groups : List (String × (List Int × List Int)))
    (rows : List Row) : List Row :=
  groups.foldl
    (fun rws g =>
      rws.map fun row => if row.date = g.1 then applyDaily g.2.1 g.2.2 row else row)
    rows

/-- The fully populated `allData` array at the end of `fetchData`. -/
def allDataFinal (records : List RawRecord) : List Row :=
  dailyBackfill (dailyGroups records)
    (totalsBackfill (totalsMap (·.cases) records) (totalsMap (·.deaths) records)
      (initRows records))

/-- The per-country sum of a field over all records with exactly that
country string (the specification-side description of the totals). -/
def countrySum (f : RawRecord → Int) (records : List RawRecord) (c : String) : Int :=
  listSum ((records.filter (fun r => r.countriesAndTerritories = c)).map f)

/-- The cases of all records carrying exactly the date string `d`, in
record order. -/
def dateCases (records : List RawRecord) (d : String) : List Int :=
  (records.filter (fun r => r.dateRep = d)).map (·.cases)

/-- The deaths of all records carrying exactly the date string `d`, in
record order. -/
def dateDeaths (records : List RawRecord) (d : String) : List Int :=
  (records.filter (fun r => r.dateRep = d)).map (·.deaths)

theorem lookupA_updA {α : Type} (m : List (String × α)) (c c2 : String) (v : α) :
    lookupA (updA m c v) c2 = if c = c2 then some v else lookupA m c2 := by
  induction m with
  | nil => simp [updA, lookupA]
  | cons kv t ih =>
    obtain ⟨k, w⟩ := kv
    simp only [updA]
    by_cases hk : k = c
    · subst hk
      simp only [if_pos rfl, lookupA]
      by_cases hc : k = c2 <;> simp [hc]
    · simp only [if_neg hk, lookupA]
      by_cases hc : k = c2
      · subst hc
        have : ¬ c = k := fun h => hk h.symm
        simp [this]
      · simp [hc, ih]

theorem lookupA_none_iff {α : Type} (m : List (String × α)) (c : String) :
    lookupA m c = none ↔ c ∉ m.map (·.1) := by
  induction m with
  | nil => simp [lookupA]
  | cons kv t ih =>
    obtain ⟨k, w⟩ := kv
    simp only [lookupA, List.map_cons, List.mem_cons]
    by_cases hk : k = c
    · subst hk; simp
    · simp only [if_neg hk, ih]
      constructor
      · intro h hmem
        rcases hmem with h1 | h2
        · exact hk h1.symm
        · exact h h2
      · intro h hmem
        exact h (Or.inr hmem)

/-- A totals lookup with the missing-key default 0. -/
def lookupZ (m : List (String × Int)) (c : String) : Int := (lookupA m c).getD 0

theorem listSum_foldl (l : List Int) (a : Int) : l.foldl (· + ·) a = a + listSum l := by
  induction l generalizing a with
  | nil => simp [listSum]
  | cons x t ih =>
    simp only [listSum, List.foldl]
    rw [ih (a + x), ih (0 + x)]
    omega

theorem listSum_cons (x : Int) (l : List Int) : listSum (x :: l) = x + listSum l := by
  show (x :: l).foldl (· + ·) 0 = _
  rw [List.foldl_cons, listSum_foldl]
  omega

theorem lookupZ_totalsStep (f : RawRecord → Int) (m : List (String × Int))
    (r : RawRecord) (c : String) :
    lookupZ (totalsStep f m r) c
      = lookupZ m c + (if r.countriesAndTerritories = c then f r else 0) := by
  unfold lookupZ
  cases h : lookupA m r.countriesAndTerritories with
  | none =>
    simp only [totalsStep, h, lookupA_updA]
    by_cases hc : r.countriesAndTerritories = c
    · rw [← hc, h]; simp [hc]
    · simp [hc]
  | some t =>
    simp only [totalsStep, h]
    by_cases ht : t ≠ 0
    · simp only [if_pos ht, lookupA_updA]
      by_cases hc : r.countriesAndTerritories = c
      · rw [← hc, h]; simp [hc]
      · simp [hc]
    · have ht0 : t = 0 := not_not.mp ht
      simp only [if_neg ht, lookupA_updA]
      by_cases hc : r.countriesAndTerritories = c
      · rw [← hc, h]; simp [hc, ht0]
      · simp [hc]

theorem lookupZ_totals_foldl (f : RawRecord → Int) :
    ∀ (rs : List RawRecord) (m : List (String × Int)) (c : String),
    lookupZ (rs.foldl (totalsStep f) m) c = lookupZ m c + countrySum f rs c := by
  intro rs
  induction rs with
  | nil => intro m c; simp [countrySum, listSum]
  | cons r rs ih =>
    intro m c
    simp only [List.foldl_cons]
    rw [ih, lookupZ_totalsStep]
    have hsum : countrySum f (r :: rs) c
        = (if r.countriesAndTerritories = c then f r else 0) + countrySum f rs c := by
      simp only [countrySum, List.filter_cons]
      by_cases hc : r.countriesAndTerritories = c
      · simp [hc, listSum_cons]
      · simp [hc]
    omega

theorem totalsStep_isSome_of (f : RawRecord → Int) (m : List (String × Int))
    (r : RawRecord) (c : String) (h : (lookupA m c).isSome = true) :
    (lookupA (totalsStep f m r) c).isSome = true := by
  cases h2 : lookupA m r.countriesAndTerritories with
  | none =>
    simp only [totalsStep, h2, lookupA_updA]
    by_cases hc : r.countriesAndTerritories = c <;> simp [hc, h]
  | some t =>
    simp only [totalsStep, h2]
    rcases eq_or_ne t 0 with ht | ht
    · rw [if_neg (by simp [ht])]
      simp only [lookupA_updA]
      by_cases hc : r.countriesAndTerritories = c <;> simp [hc, h]
    · rw [if_pos ht]
      simp only [lookupA_updA]
      by_cases hc : r.countriesAndTerritories = c <;> simp [hc, h]

theorem totalsStep_isSome_own (f : RawRecord → Int) (m : List (String × Int))
    (r : RawRecord) :
    (lookupA (totalsStep f m r) r.countriesAndTerritories).isSome = true := by
  cases h2 : lookupA m r.countriesAndTerritories with
  | none => simp [totalsStep, h2, lookupA_updA]
  | some t =>
    simp only [totalsStep, h2]
    rcases eq_or_ne t 0 with ht | ht
    · rw [if_neg (by simp [ht])]
      simp [lookupA_updA]
    · rw [if_pos ht]
      simp [lookupA_updA]

theorem totals_foldl_isSome (f : RawRecord → Int) :
    ∀ (rs : List RawRecord) (m : List (String × Int)) (c : String),
    (c ∈ rs.map (·.countriesAndTerritories) ∨ (lookupA m c).isSome = true) →
    (lookupA (rs.foldl (totalsStep f) m) c).isSome = true := by
  intro rs
  induction rs with
  | nil =>
    intro m c h
    rcases h with h | h
    · simp at h
    · exact h
  | cons r rs ih =>
    intro m c h
    simp only [List.foldl_cons]
    apply ih
    rcases h with h | h
    · simp only [List.map_cons, List.mem_cons] at h
      rcases h with h | h
      · right
        subst h
        exact totalsStep_isSome_own f m r
      · left; exact h
    · right; exact totalsStep_isSome_of f m r c h

theorem totalsMap_lookup (f : RawRecord → Int) (records : List RawRecord)
    (c : String) (hc : c ∈ records.map (·.countriesAndTerritories)) :
    lookupA (totalsMap f records) c = some (countrySum f records c) := by
  have hs : (lookupA (totalsMap f records) c).isSome = true :=
    totals_foldl_isSome f records [] c (Or.inl hc)
  have hz : lookupZ (totalsMap f records) c = countrySum f records c := by
    have := lookupZ_totals_foldl f records [] c
    simpa [lookupZ, lookupA] using this
  obtain ⟨t, ht⟩ := Option.isSome_iff_exists.mp hs
  rw [ht]
  rw [lookupZ, ht] at hz
  simpa using hz

/-- A group lookup with the missing-key default of two empty lists. -/
def lookupG (m : List (String × (List Int × List Int))) (d : String) :
    List Int × List Int := (lookupA m d).getD ([], [])

theorem lookupG_dailyStep (m : List (String × (List Int × List Int)))
    (r : RawRecord) (d : String) :
    lookupG (dailyStep m r) d =
      if r.dateRep = d then
        ((lookupG m d).1 ++ [r.cases], (lookupG m d).2 ++ [r.deaths])
      else lookupG m d := by
  unfold lookupG
  cases h : lookupA m r.dateRep with
  | none =>
    simp only [dailyStep, h, lookupA_updA]
    by_cases hd : r.dateRep = d
    · rw [← hd, h]; simp [hd]
    · simp [hd]
  | some g =>
    simp only [dailyStep, h, lookupA_updA]
    by_cases hd : r.dateRep = d
    · rw [← hd, h]; simp [hd]
    · simp [hd]

theorem lookupG_daily_foldl :
    ∀ (rs : List RawRecord) (m : List (String × (List Int × List Int))) (d : String),
    lookupG (rs.foldl dailyStep m) d
      = ((lookupG m d).1 ++ dateCases rs d, (lookupG m d).2 ++ dateDeaths rs d) := by
  intro rs
  induction rs with
  | nil => intro m d; simp [dateCases, dateDeaths]
  | cons r rs ih =>
    intro m d
    simp only [List.foldl_cons]
    rw [ih, lookupG_dailyStep]
    by_cases hd : r.dateRep = d
    · simp [hd, dateCases, dateDeaths, List.filter_cons]
    · simp [hd, dateCases, dateDeaths, List.filter_cons]

theorem dailyStep_isSome_of (m : List (String × (List Int × List Int)))
    (r : RawRecord) (d : String) (h : (lookupA m d).isSome = true) :
    (lookupA (dailyStep m r) d).isSome = true := by
  cases h2 : lookupA m r.dateRep with
  | none =>
    simp only [dailyStep, h2, lookupA_updA]
    by_cases hd : r.dateRep = d <;> simp [hd, h]
  | some g =>
    simp only [dailyStep, h2, lookupA_updA]
    by_cases hd : r.dateRep = d <;> simp [hd, h]

theorem dailyStep_isSome_own (m : List (String × (List Int × List Int)))
    (r : RawRecord) :
    (lookupA (dailyStep m r) r.dateRep).isSome = true := by
  cases h2 : lookupA m r.dateRep with
  | none => simp [dailyStep, h2, lookupA_updA]
  | some g => simp [dailyStep, h2, lookupA_updA]

theorem daily_foldl_isSome :
    ∀ (rs : List RawRecord) (m : List (String × (List Int × List Int))) (d : String),
    (d ∈ rs.map (·.dateRep) ∨ (lookupA m d).isSome = true) →
    (lookupA (rs.foldl dailyStep m) d).isSome = true := by
  intro rs
  induction rs with
  | nil =>
    intro m d h
    rcases h with h | h
    · simp at h
    · exact h
  | cons r rs ih =>
    intro m d h
    simp only [List.foldl_cons]
    apply ih
    rcases h with h | h
    · simp only [List.map_cons, List.mem_cons] at h
      rcases h with h | h
      · right
        subst h
        exact dailyStep_isSome_own m r
      · left; exact h
    · right; exact dailyStep_isSome_of m r d h

theorem dailyGroups_lookup (records : List RawRecord) (d : String)
    (hd : d ∈ records.map (·.dateRep)) :
    lookupA (dailyGroups records) d
      = some (dateCases records d, dateDeaths records d) := by
  have hs : (lookupA (dailyGroups records) d).isSome = true :=
    daily_foldl_isSome records [] d (Or.inl hd)
  have hz : lookupG (dailyGroups records) d = (dateCases records d, dateDeaths records d) := by
    have := lookupG_daily_foldl records [] d
    simpa [lookupG, lookupA] using this
  obtain ⟨g, hg⟩ := Option.isSome_iff_exists.mp hs
  rw [hg]
  rw [lookupG, hg] at hz
  simpa using hz

theorem updA_keys_of_isSome {α : Type} (m : List (String × α)) (c : String) (v : α)
    (h : (lookupA m c).isSome = true) :
    (updA m c v).map (·.1) = m.map (·.1) := by
  induction m with
  | nil => simp [lookupA] at h
  | cons kv t ih =>
    obtain ⟨k, w⟩ := kv
    simp only [updA]
    by_cases hk : k = c
    · simp [hk]
    · simp only [lookupA, if_neg hk] at h
      simp [hk, ih h]

theorem updA_keys_of_none {α : Type} (m : List (String × α)) (c : String) (v : α)
    (h : lookupA m c = none) :
    (updA m c v).map (·.1) = m.map (·.1) ++ [c] := by
  induction m with
  | nil => simp [updA]
  | cons kv t ih =>
    obtain ⟨k, w⟩ := kv
    simp only [lookupA] at h
    by_cases hk : k = c
    · simp [hk] at h
    · simp only [if_neg hk] at h
      simp [updA, hk, ih h]

theorem updA_keys_nodup {α : Type} (m : List (String × α)) (c : String) (v : α)
    (h : (m.map (·.1)).Nodup) : ((updA m c v).map (·.1)).Nodup := by
  cases hl : lookupA m c with
  | some g =>
    rw [updA_keys_of_isSome m c v (by simp [hl])]
    exact h
  | none =>
    rw [updA_keys_of_none m c v hl]
    rw [List.nodup_append]
    refine ⟨h, List.nodup_singleton c, ?_⟩
    intro x hx hxc
    simp only [List.mem_singleton] at hxc
    subst hxc
    exact ((lookupA_none_iff m x).mp hl) hx

theorem dailyGroups_keys_nodup (records : List RawRecord) :
    ((dailyGroups records).map (·.1)).Nodup := by
  have main : ∀ (rs : List RawRecord) (m : List (String × (List Int × List Int))),
      (m.map (·.1)).Nodup → ((rs.foldl dailyStep m).map (·.1)).Nodup := by
    intro rs
    induction rs with
    | nil => intro m h; exact h
    | cons r rs ih =>
      intro m h
      simp only [List.foldl_cons]
      apply ih
      cases h2 : lookupA m r.dateRep with
      | none => simp only [dailyStep, h2]; exact updA_keys_nodup _ _ _ h
      | some g => simp only [dailyStep, h2]; exact updA_keys_nodup _ _ _ h
  exact main records [] (by simp)

theorem dailyBackfill_mem :
    ∀ (groups : List (String × (List Int × List Int))) (rows : List Row),
    (groups.map (·.1)).Nodup →
    ∀ row2 ∈ dailyBackfill groups rows,
      ∃ row ∈ rows, row2.date = row.date ∧
        ((lookupA groups row.date = none ∧ row2 = row) ∨
         (∃ g, lookupA groups row.date = some g ∧ row2 = applyDaily g.1 g.2 row)) := by
  intro groups
  induction groups with
  | nil =>
    intro rows _ row2 h2
    exact ⟨row2, h2, rfl, Or.inl ⟨rfl, rfl⟩⟩
  | cons g0 gs ih =>
    intro rows hnd row2 h2
    have hnd2 : (gs.map (·.1)).Nodup := (List.nodup_cons.mp hnd).2
    have hd0 : g0.1 ∉ gs.map (·.1) := (List.nodup_cons.mp hnd).1
    have h2g : row2 ∈ dailyBackfill gs
        (rows.map fun row =>
          if row.date = g0.1 then applyDaily g0.2.1 g0.2.2 row else row) := by
      simpa [dailyBackfill, List.foldl_cons] using h2
    obtain ⟨row1, h1mem, h1date, h1cases⟩ := ih _ hnd2 row2 h2g
    obtain ⟨row, hrow, hrow1⟩ := List.mem_map.mp h1mem
    by_cases hrd : row.date = g0.1
    · have hr1 : row1 = applyDaily g0.2.1 g0.2.2 row := by
        rw [← hrow1]; simp [hrd]
      have hdate : row1.date = row.date := by rw [hr1]; rfl
      refine ⟨row, hrow, h1date.trans hdate, Or.inr ⟨g0.2, ?_, ?_⟩⟩
      · cases g0
        simp only [lookupA]
        rw [if_pos hrd.symm]
      · have hnone : lookupA gs row1.date = none := by
          rw [hdate, hrd]
          exact (lookupA_none_iff _ _).mpr hd0
        rcases h1cases with ⟨_, h⟩ | ⟨g, hg, _⟩
        · rw [h, hr1]
        · rw [hnone] at hg; cases hg
    · have hr1 : row1 = row := by rw [← hrow1]; simp [hrd]
      rw [hr1] at h1date h1cases
      have hcons : lookupA (g0 :: gs) row.date = lookupA gs row.date := by
        cases g0
        simp only [lookupA]
        rw [if_neg (fun hh => hrd hh.symm)]
      rw [← hcons] at h1cases
      exact ⟨row, hrow, h1date, h1cases⟩

theorem avgString_eq (l : List Int) (h : l ≠ []) :
    avgString l
      = toFixed 4 (Frac.div (.ofInt (listSum l)) (.ofNat l.length)) := by
  have hlen : l.length ≠ 0 := fun hh => h (List.length_eq_zero.mp hh)
  have hz : (Frac.ofNat l.length).isZero = false := by
    simp [Frac.isZero, Frac.ofNat, hlen]
  simp [avgString, JSNum.div, hz, jsToFixed]

/-- C6: for every country occurring in the raw records, the totals
dictionaries hold the integer sums of cases and deaths over all records
with that exact country string, and every row of the final data for that
country carries those same totals (a broadcast, not a running sum). -/
theorem c6_country_totals_broadcast (records : List RawRecord) (c : String)
    (hc : c ∈ records.map (·.countriesAndTerritories)) :
    lookupA (totalsMap (·.cases) records) c = some (countrySum (·.cases) records c)
    ∧ lookupA (totalsMap (·.deaths) records) c = some (countrySum (·.deaths) records c)
    ∧ ∀ row ∈ allDataFinal records, row.country = c →
        row.totalCases = jnum (countrySum (·.cases) records c)
        ∧ row.totalDeaths = jnum (countrySum (·.deaths) records c) := by
  refine ⟨totalsMap_lookup _ records c hc, totalsMap_lookup _ records c hc, ?_⟩
  intro row2 hmem hcountry
  obtain ⟨row, hrow, hdate, hdisj⟩ :=
    dailyBackfill_mem (dailyGroups records) _ (dailyGroups_keys_nodup records) row2 hmem
  have hfields : row2.country = row.country
      ∧ row2.totalCases = row.totalCases ∧ row2.totalDeaths = row.totalDeaths := by
    rcases hdisj with ⟨_, h⟩ | ⟨g, _, h⟩ <;> rw [h] <;> exact ⟨rfl, rfl, rfl⟩
  obtain ⟨row0, hrow0, hr0⟩ := List.mem_map.mp hrow
  have hrc : row.country = c := by rw [← hfields.1, hcountry]
  have hcountry0 : row.country = row0.country := by rw [← hr0]
  have htc : row.totalCases = optIntVal (lookupA (totalsMap (·.cases) records) row0.country) := by
    rw [← hr0]
  have htd : row.totalDeaths = optIntVal (lookupA (totalsMap (·.deaths) records) row0.country) := by
    rw [← hr0]
  have hc0 : row0.country = c := by rw [← hcountry0, hrc]
  rw [hc0] at htc htd
  rw [totalsMap_lookup _ records c hc] at htc
  rw [totalsMap_lookup _ records c hc] at htd
  constructor
  · rw [hfields.2.1, htc]; rfl
  · rw [hfields.2.2, htd]; rfl

/-- C5: for every date string occurring in the raw records, the daily
dictionary groups exactly the cases/deaths of the records carrying that
byte-identical date string, and every row of the final data with that
date carries the group's arithmetic mean and maximum of cases and
deaths, each formatted with 4 fractional digits. -/
theorem c5_daily_aggregator (records : List RawRecord) (d : String)
    (hd : d ∈ records.map (·.dateRep)) :
    lookupA (dailyGroups records) d
      = some (dateCases records d, dateDeaths records d)
    ∧ ∀ row ∈ allDataFinal records, row.date = d →
        row.averageCases = .str (toFixed 4
          (Frac.div (.ofInt (listSum (dateCases records d)))
            (.ofNat (dateCases records d).length)))
        ∧ row.averageDeaths = .str (toFixed 4
          (Frac.div (.ofInt (listSum (dateDeaths records d)))
            (.ofNat (dateDeaths records d).length)))
        ∧ row.maxCases = .str (toFixed 4 (.ofInt (listMax (dateCases records d))))
        ∧ row.maxDeaths = .str (toFixed 4 (.ofInt (listMax (dateDeaths records d)))) := by
  have hlk := dailyGroups_lookup records d hd
  obtain ⟨r0, hr0mem, hr0d⟩ := List.mem_map.mp hd
  have hneC : dateCases records d ≠ [] := by
    apply List.ne_nil_of_mem (a := r0.cases)
    exact List.mem_map_of_mem _ (List.mem_filter.mpr ⟨hr0mem, by simp [hr0d]⟩)
  have hneD : dateDeaths records d ≠ [] := by
    apply List.ne_nil_of_mem (a := r0.deaths)
    exact List.mem_map_of_mem _ (List.mem_filter.mpr ⟨hr0mem, by simp [hr0d]⟩)
  refine ⟨hlk, ?_⟩
  intro row2 hmem hdate2
  obtain ⟨row, hrow, hdate, hdisj⟩ :=
    dailyBackfill_mem (dailyGroups records) _ (dailyGroups_keys_nodup records) row2 hmem
  have hrowdate : row.date = d := by rw [← hdate, hdate2]
  rcases hdisj with ⟨hnone, _⟩ | ⟨g, hg, hr2⟩
  · rw [hrowdate, hlk] at hnone; cases hnone
  · rw [hrowdate, hlk] at hg
    have hgg : g = (dateCases records d, dateDeaths records d) := by
      injection hg with hg2
      exact hg2.symm
    subst hgg
    rw [hr2]
    refine ⟨?_, ?_, rfl, rfl⟩
    · exact congrArg JSVal.str (avgString_eq _ hneC)
    · exact congrArg JSVal.str (avgString_eq _ hneD)

/-- Two records sharing the date used by the C5 witness. -/
def recs5 : List RawRecord :=
  [⟨"A", 10, 1, "01/01/2020", some 1000⟩, ⟨"B", 20, 3, "01/01/2020", some 1000⟩]

/-- Three records of one country used by the C6 witness. -/
def recs6 : List RawRecord :=
  [⟨"X", 1, 4, "01/01/2020", some 1000⟩, ⟨"X", 2, 5, "02/01/2020", some 1000⟩,
   ⟨"X", 3, 6, "03/01/2020", some 1000⟩]

/-- A default row for positional access in witnesses. -/
def defaultRow : Row := mkRow ⟨"", 0, 0, "", none⟩

/-- C5 witness: two records on one date with cases 10 and 20 yield the
average string `"15.0000"` and the maximum string `"20.0000"` on the
backfilled rows. -/
theorem c5_daily_aggregator_witness :
    lookupA (dailyGroups recs5) "01/01/2020" = some ([10, 20], [1, 3])
    ∧ ((allDataFinal recs5).getD 0 defaultRow).averageCases = .str "15.0000"
    ∧ ((allDataFinal recs5).getD 0 defaultRow).maxCases = .str "20.0000" := by
  have h := c5_daily_aggregator recs5 "01/01/2020" (by decide)
  have hrow := h.2 ((allDataFinal recs5).getD 0 defaultRow) (by decide) (by decide)
  refine ⟨h.1.trans (congrArg some (by decide)), ?_, ?_⟩
  · exact hrow.1.trans (by decide)
  · exact hrow.2.2.1.trans (by decide)

/-- C6 witness: three records for country `"X"` with cases 1, 2, 3 give
the total 6, broadcast to each of the country's rows. -/
theorem c6_country_totals_broadcast_witness :
    lookupA (totalsMap (·.cases) recs6) "X" = some 6
    ∧ ((allDataFinal recs6).getD 0 defaultRow).totalCases = jnum 6
    ∧ ((allDataFinal recs6).getD 2 defaultRow).totalCases = jnum 6 := by
  have h := c6_country_totals_broadcast recs6 "X" (by decide)
  refine ⟨h.1.trans (congrArg some (by decide)), ?_, ?_⟩
  · exact ((h.2.2 _ (by decide) (by decide)).1).trans (by decide)
  · exact ((h.2.2 _ (by decide) (by decide)).1).trans (by decide)

/-! ### The date-range filter clause (src/App.js lines 322-326) -/

/-- A calendar date.  JavaScript `Date` objects built from such strings
sit at local midnight, so they compare by year, then month, then day. -/
structure CalDate where
  year : ℕ
  month : ℕ
  day : ℕ
deriving DecidableEq, Repr

/-- Order key of a date (lexicographic in year, month, day). -/
def CalDate.key (d : CalDate) : ℕ := d.year * 10000 + d.month * 100 + d.day

/-- Value of a nonempty all-digit character group. -/
def parseNatDigits (cs : List Char) : Option ℕ :=
  if cs ≠ [] && cs.all Char.isDigit then some (digitsVal cs) else none

/-- Split a character list on `/` separators. -/
def splitSlash : List Char → List (List Char)
  | [] => [[]]
  | c :: rest =>
    match splitSlash rest with
    | [] => [[]]
    | g :: gs => if c = '/' then [] :: g :: gs else (c :: g) :: gs

/-- Model of `new Date(string)` on slash-separated numeric triples, the
only shape the pipeline feeds it: the legacy parser of the engines reads
them as month/day/year and yields an Invalid Date (`none`) when the
first component is not a month 1..12.  Days are accepted up to 31
(month-length rollover is not refined) and years are taken literally;
other string shapes of the implementation-defined grammar are not
modelled and map to Invalid. -/
def jsNewDate (s : String) : Option CalDate :=
  match splitSlash s.data with
  | [a, b, c] =>
    match parseNatDigits a, parseNatDigits b, parseNatDigits c with
    | some m, some dd, some y =>
      if 1 ≤ m && m ≤ 12 && 1 ≤ dd && dd ≤ 31 then some ⟨y, m, dd⟩ else none
    | _, _, _ => none
  | _ => none

/-- Modelled from the spec: the date-range filter is specified to parse
the row's date string in day/month/year order as a calendar date.  This
specification-side parser exhibits the divergence from the code, which
hands the raw string to `new Date` (month-first). -/
def specParseDMY (s : String) : Option CalDate :=
  match splitSlash s.data with
  | [a, b, c] =>
    match parseNatDigits a, parseNatDigits b, parseNatDigits c with
    | some dd, some m, some y =>
      if 1 ≤ m && m ≤ 12 && 1 ≤ dd && dd ≤ 31 then some ⟨y, m, dd⟩ else none
    | _, _, _ => none
  | _ => none

/-- The date-range clause of the filter (App.js lines 322-326): parse
the row's date string with `new Date(entry.date)`; an invalid parse
fails the clause regardless of the bounds; a null (`none`) or invalid
(`some none`) bound passes its side of the range test. -/
def dateClause (startDate endDate : Option (Option CalDate)) (dateStr : String) :
    Bool :=
  match jsNewDate dateStr with
  | none => false
  | some e =>
    (match startDate with
     | none => true
     | some none => true
     | some (some s) => s.key ≤ e.key)
    &&
    (match endDate with
     | none => true
     | some none => true
     | some (some en) => e.key ≤ en.key)

/-- C2: the claim states that the date-range clause parses the row's
date in day/month/year order and passes the row iff the parse succeeds
and the date lies within the bounds.  The code passes the raw dd/mm/yyyy
string straight to `new Date`, which reads it month-first: the dataset
date "13/01/2020" (13 January 2020, a valid day/month/year date) parses
to an Invalid Date and the row is excluded even with no bounds set,
while "05/03/2020" (5 March 2020) is read as the 3rd of May.  The
elsewhere-correct handling at App.js line 202 (explicit
`[day, month, year]` split and swap before building a `Date`) shows the
dd/mm/yyyy reading is the intended one. -/
theorem c2_date_filter_parses_month_first :
    specParseDMY "13/01/2020" = some ⟨2020, 1, 13⟩
    ∧ jsNewDate "13/01/2020" = none
    ∧ dateClause none none "13/01/2020" = false
    ∧ dateClause none none "05/03/2020" = true
    ∧ jsNewDate "05/03/2020" = some ⟨2020, 5, 3⟩
    ∧ specParseDMY "05/03/2020" = some ⟨2020, 3, 5⟩ := by
  refine ⟨by decide, by decide, by decide, by decide, by decide, by decide⟩

/-! ### Sorting (`sortData`, src/unnamed/part_000 lines 84-126) -/

/-- The sortable columns of the table, i.e. the strings the app passes
to `sortData` (the constructors `casesC` / `deathsC` stand for the
column names `cases` / `deaths`).  The switch of the comparator treats
`country` and the eight numeric columns specially; `cases`, `deaths`
and anything else fall to the default string branch. -/
inductive Column where
  | country
  | casesC
  | deathsC
  | totalCases
  | totalDeaths
  | casesPer1000
  | deathsPer1000
  | averageCases
  | averageDeaths
  | maxCases
  | maxDeaths
deriving DecidableEq, Repr

/-- The eight numeric-typed columns of the comparator's switch. -/
def numericColumns : List Column :=
  [.totalCases, .totalDeaths, .casesPer1000, .deathsPer1000,
   .averageCases, .averageDeaths, .maxCases, .maxDeaths]

/-- The JavaScript value `row[column]`. -/
def rowField (row : Row) : Column → JSVal
  | .country => .str row.country
  | .casesC => .num (.num (.ofInt row.cases))
  | .deathsC => .num (.num (.ofInt row.deaths))
  | .totalCases => row.totalCases
  | .totalDeaths => row.totalDeaths
  | .casesPer1000 => .str row.casesPer1000
  | .deathsPer1000 => .str row.deathsPer1000
  | .averageCases => row.averageCases
  | .averageDeaths => row.averageDeaths
  | .maxCases => row.maxCases
  | .maxDeaths => row.maxDeaths

/-- ToNumber coercion of a row value. -/
def valToNum : JSVal → JSNum
  | .str s => jsToNumber s
  | .num v => v
  | .undefv => .nan

/-- Decimal rendering of an integer. -/
def intToString (i : Int) : String :=
  if i < 0 then "-" ++ natToString i.natAbs else natToString i.natAbs

/-- `parseFloat` applied to a row value: it stringifies its argument
first, so a finite number round-trips and the special values parse from
their rendered names (`"NaN"` back to `NaN`, `"Infinity"` to infinity);
`undefined` stringifies to `"undefined"` and parses to `NaN`. -/
def valParseFloat : JSVal → JSNum
  | .str s => jsParseFloat s
  | .num v => v
  | .undefv => .nan

/-- The numeric-column coercion of lines 108-109:
`isNaN(x) ? parseFloat(x) || 0 : +x`.  The `|| 0` replaces a falsy
`parseFloat` result (`NaN` or a zero) by the number 0, so the outcome is
never `NaN`. -/
def numericCoerce (v : JSVal) : JSNum :=
  if (valToNum v).isNaN then
    match valParseFloat v with
    | .nan => .num (.ofInt 0)
    | .num q => if q.isZero then .num (.ofInt 0) else .num q
    | x => x
  else valToNum v

/-- The `String(a[column] || '')` coercion of the default branch: a
falsy value (`undefined`, a zero, `NaN`, the empty string) is replaced
by `''` first.  The default columns of this table (`cases`, `deaths`)
always hold integers, so the non-integer number case (whose JavaScript
rendering needs shortest-round-trip float formatting) is unreached and
maps to the empty string. -/
def defaultString : JSVal → String
  | .str s => s
  | .num (.num q) => if q.isZero then "" else if q.dp = 0 then intToString q.n else ""
  | .num .inf => "Infinity"
  | .num .negInf => "-Infinity"
  | .num .nan => ""
  | .undefv => ""

/-- The comparison of line 118 applied to two string values:
`localeCompare` when either fails numeric coercion, otherwise the
numeric difference of the coercions. -/
def strPairCmp (a b : String) : JSNum :=
  if (jsToNumber a).isNaN || (jsToNumber b).isNaN then
    .num (.ofInt (strCmpJS a b))
  else JSNum.sub (jsToNumber a) (jsToNumber b)

/-- The comparison of line 118 applied to two already-numeric coerced
values (the numeric-column branch).  When either is `NaN` the source
would call `valueA.localeCompare(valueB)` on a number and throw a
TypeError; that branch is proven unreachable (the C9 theorem below) and
is modelled as the tie result `NaN` (which the sort treats as 0). -/
def numPairCmp (x y : JSNum) : JSNum :=
  if x.isNaN || y.isNaN then .nan else JSNum.sub x y

/-- The comparator body of `sortData` (lines 89-121) before direction
adjustment.  For the `country` column `a[column] || ''` leaves the
string field unchanged (the empty string maps to itself). -/
def cmpRows (column : Column) (a b : Row) : JSNum :=
  match column with
  | .country => strPairCmp a.country b.country
  | .casesC =>
    strPairCmp (defaultString (rowField a .casesC)) (defaultString (rowField b .casesC))
  | .deathsC =>
    strPairCmp (defaultString (rowField a .deathsC)) (defaultString (rowField b .deathsC))
  | col => numPairCmp (numericCoerce (rowField a col)) (numericCoerce (rowField b col))

/-- Direction adjustment of line 121: `asc` keeps the comparison, any
other direction string negates it. -/
def cmpDirected (column : Column) (direction : String) (a b : Row) : JSNum :=
  if direction = "asc" then cmpRows column a b else JSNum.neg (cmpRows column a b)

/-- The "not greater" reading of a comparator result used by the sort;
per the ECMAScript SortCompare a `NaN` comparator value counts as 0. -/
def jsNumNonpos : JSNum → Bool
  | .num q => !q.isPos
  | .inf => false
  | .negInf => true
  | .nan => true

/-- The sort relation: element `a` need not come after `b`. -/
def rowLe (column : Column) (direction : String) (a b : Row) : Bool :=
  jsNumNonpos (cmpDirected column direction a b)

/-- Stable insertion: the new element goes in front of the first element
it compares "not greater" to.  Elements are inserted back to front, so
an earlier element is placed before the ties already present. -/
def sortInsert {α : Type} (le : α → α → Bool) (a : α) : List α → List α
  | [] => [a]
  | b :: l => if le a b then a :: b :: l else b :: sortInsert le a l

/-- Stable sorting.  `Array.prototype.sort` is stable and, for a
consistent comparator, the stable order of the input is unique, so this
insertion sort models it; for an inconsistent comparator the JavaScript
result is implementation-defined and the order-dependent theorems below
restrict to inputs on which the comparator is consistent. -/
def stableSort {α : Type} (le : α → α → Bool) : List α → List α
  | [] => []
  | a :: l => sortInsert le a (stableSort le l)

/-- Embedding of `sortData` (lines 84-126): copy the array, sort the
copy with the directed comparator, return it. -/
def sortData (data : List Row) (column : Column) (direction : String) : List Row :=
  stableSort (rowLe column direction) data

theorem frac_neg_neg (q : Frac) : q.neg.neg = q := by
  simp [Frac.neg]

theorem jsnum_neg_neg (x : JSNum) : x.neg.neg = x := by
  cases x <;> simp [JSNum.neg, frac_neg_neg]

theorem strPairCmp_swap (a b : String) : strPairCmp b a = (strPairCmp a b).neg := by
  unfold strPairCmp
  rw [Bool.or_comm]
  by_cases h : ((jsToNumber a).isNaN || (jsToNumber b).isNaN) = true
  · rw [if_pos h, if_pos h]
    rw [strCmpJS_swap]
    simp [JSNum.neg, Frac.neg, Frac.ofInt]
  · rw [if_neg h, if_neg h]
    exact JSNum.sub_swap (jsToNumber a) (jsToNumber b)

theorem numPairCmp_swap (x y : JSNum) : numPairCmp y x = (numPairCmp x y).neg := by
  unfold numPairCmp
  rw [Bool.or_comm]
  by_cases h : (x.isNaN || y.isNaN) = true
  · rw [if_pos h, if_pos h]; rfl
  · rw [if_neg h, if_neg h]
    exact JSNum.sub_swap x y

theorem cmpRows_swap (column : Column) (a b : Row) :
    cmpRows column b a = (cmpRows column a b).neg := by
  cases column <;>
    simp only [cmpRows] <;>
    first
    | exact strPairCmp_swap _ _
    | exact numPairCmp_swap _ _

theorem cmpDirected_swap (column : Column) (direction : String) (a b : Row) :
    cmpDirected column direction b a = (cmpDirected column direction a b).neg := by
  unfold cmpDirected
  by_cases h : direction = "asc"
  · rw [if_pos h, if_pos h]; exact cmpRows_swap column a b
  · rw [if_neg h, if_neg h]
    rw [cmpRows_swap column a b]

theorem jsNumNonpos_or_neg (x : JSNum) :
    jsNumNonpos x = true ∨ jsNumNonpos x.neg = true := by
  cases x with
  | num q =>
    by_cases hq : 0 < q.n
    · right
      simp [jsNumNonpos, JSNum.neg, Frac.neg, Frac.isPos]
      omega
    · left
      simp [jsNumNonpos, Frac.isPos]
      omega
  | inf => right; rfl
  | negInf => left; rfl
  | nan => left; rfl

theorem rowLe_total (column : Column) (direction : String) (a b : Row) :
    rowLe column direction a b = true ∨ rowLe column direction b a = true := by
  unfold rowLe
  have h := cmpDirected_swap column direction a b
  rw [h]
  exact jsNumNonpos_or_neg (cmpDirected column direction a b)

section SortLemmas

variable {α : Type} (le : α → α → Bool)

theorem sortInsert_perm (a : α) : ∀ l : List α, (sortInsert le a l).Perm (a :: l) := by
  intro l
  induction l with
  | nil => exact List.Perm.refl _
  | cons b t ih =>
    unfold sortInsert
    by_cases h : le a b = true
    · rw [if_pos h]
    · rw [if_neg h]
      exact (List.Perm.cons b ih).trans (List.Perm.swap a b t)

theorem stableSort_perm : ∀ l : List α, (stableSort le l).Perm l := by
  intro l
  induction l with
  | nil => exact List.Perm.refl _
  | cons a t ih =>
    exact (sortInsert_perm le a (stableSort le t)).trans (List.Perm.cons a ih)

theorem sortInsert_head (a : α) (l : List α) :
    (sortInsert le a l).head? = some a ∨ (sortInsert le a l).head? = l.head? := by
  cases l with
  | nil => left; rfl
  | cons b t =>
    unfold sortInsert
    by_cases h : le a b = true
    · rw [if_pos h]; left; rfl
    · rw [if_neg h]; right; rfl

theorem chain_sortInsert (a : α) :
    ∀ l : List α, (∀ x ∈ l, le a x = true ∨ le x a = true) →
    l.Chain' (fun x y => le x y = true) →
    (sortInsert le a l).Chain' (fun x y => le x y = true) := by
  intro l
  induction l with
  | nil => intro _ _; simp [sortInsert]
  | cons b t ih =>
    intro htot hc
    unfold sortInsert
    by_cases h : le a b = true
    · rw [if_pos h]
      exact List.chain'_cons.mpr ⟨h, hc⟩
    · rw [if_neg h]
      have hba : le b a = true := by
        rcases htot b (by simp) with h1 | h1
        · exact absurd h1 h
        · exact h1
      have htail := (List.chain'_cons'.mp hc).2
      have ihh := ih (fun x hx => htot x (by simp [hx])) htail
      apply List.chain'_cons'.mpr
      refine ⟨?_, ihh⟩
      intro y hy
      rcases sortInsert_head le a t with hh | hh
      · rw [hh] at hy
        simp only [Option.mem_def, Option.some.injEq] at hy
        subst hy
        exact hba
      · rw [hh] at hy
        exact (List.chain'_cons'.mp hc).1 y hy

theorem chain_stableSort (htot : ∀ x y : α, le x y = true ∨ le y x = true) :
    ∀ l : List α, (stableSort le l).Chain' (fun x y => le x y = true) := by
  intro l
  induction l with
  | nil => simp [stableSort]
  | cons a t ih =>
    exact chain_sortInsert le a _ (fun x _ => htot a x) ih

theorem stableSort_of_chain :
    ∀ l : List α, l.Chain' (fun x y => le x y = true) → stableSort le l = l := by
  intro l
  induction l with
  | nil => intro _; rfl
  | cons a t ih =>
    intro hc
    have ht := ih (List.chain'_cons'.mp hc).2
    show sortInsert le a (stableSort le t) = a :: t
    rw [ht]
    cases t with
    | nil => rfl
    | cons b t2 =>
      have hab : le a b = true := (List.chain'_cons.mp hc).1
      unfold sortInsert
      rw [if_pos hab]

theorem stableSort_idem (htot : ∀ x y : α, le x y = true ∨ le y x = true)
    (l : List α) : stableSort le (stableSort le l) = stableSort le l :=
  stableSort_of_chain le _ (chain_stableSort le htot l)

end SortLemmas

section PairwiseLemmas

variable {α : Type} {P : α → α → Prop}

theorem chain_all_head :
    ∀ (t : List α) (a : α), List.Chain' P (a :: t) →
    (∀ x ∈ a :: t, ∀ y ∈ a :: t, ∀ z ∈ a :: t, P x y → P y z → P x z) →
    ∀ b ∈ t, P a b := by
  intro t
  induction t with
  | nil =>
    intro a _ _ b hb
    simp at hb
  | cons c t2 ih =>
    intro a hc htr b hb
    have hac : P a c := (List.chain'_cons.mp hc).1
    rcases List.mem_cons.mp hb with h1 | hb2
    · rw [h1]; exact hac
    · have hct := (List.chain'_cons.mp hc).2
      have h2 := ih c hct
        (fun x hx y hy z hz => htr x (List.mem_cons_of_mem a hx)
          y (List.mem_cons_of_mem a hy) z (List.mem_cons_of_mem a hz)) b hb2
      exact htr a (by simp) c (by simp) b (by simp [hb2]) hac h2

theorem chain_pairwise :
    ∀ l : List α, List.Chain' P l →
    (∀ x ∈ l, ∀ y ∈ l, ∀ z ∈ l, P x y → P y z → P x z) →
    l.Pairwise P := by
  intro l
  induction l with
  | nil => intro _ _; exact List.Pairwise.nil
  | cons a t ih =>
    intro hc htr
    refine List.Pairwise.cons (chain_all_head t a hc htr) ?_
    refine ih (List.chain'_cons'.mp hc).2 ?_
    intro x hx y hy z hz pf pg
    exact htr x (List.mem_cons_of_mem a hx) y (List.mem_cons_of_mem a hy)
      z (List.mem_cons_of_mem a hz) pf pg

theorem pairwise_perm_unique :
    ∀ l1 l2 : List α, l1.Perm l2 → l1.Pairwise P → l2.Pairwise P →
    (∀ x ∈ l1, ∀ y ∈ l1, P x y → P y x → x = y) →
    l1 = l2 := by
  intro l1
  induction l1 with
  | nil =>
    intro l2 hp _ _ _
    exact (hp.symm.eq_nil).symm
  | cons a t1 ih =>
    intro l2 hp hp1 hp2 hanti
    cases l2 with
    | nil =>
      have := hp.eq_nil
      cases this
    | cons b t2 =>
      have hab : a = b := by
        have hbmem : b ∈ a :: t1 := hp.mem_iff.mpr (by simp)
        have hamem : a ∈ b :: t2 := hp.mem_iff.mp (by simp)
        rcases List.mem_cons.mp hbmem with h1 | h1
        · exact h1.symm
        · rcases List.mem_cons.mp hamem with h2 | h2
          · exact h2
          · have pab : P a b := (List.pairwise_cons.mp hp1).1 b h1
            have pba : P b a := (List.pairwise_cons.mp hp2).1 a h2
            exact hanti a (by simp) b (by simp [h1]) pab pba
      subst hab
      have hp2t : t1.Perm t2 := hp.cons_inv
      have heq := ih t2 hp2t (List.pairwise_cons.mp hp1).2 (List.pairwise_cons.mp hp2).2
        (fun x hx y hy => hanti x (List.mem_cons_of_mem a hx) y (List.mem_cons_of_mem a hy))
      rw [heq]

end PairwiseLemmas

/-- A row whose country string fails numeric coercion: the comparator
routes such a pair through `localeCompare`. -/
def nonNumericCountry (row : Row) : Prop := (jsToNumber row.country).isNaN = true

theorem cmp_country (x y : Row) (hx : nonNumericCountry x) :
    cmpRows .country x y = .num (.ofInt (strCmpJS x.country y.country)) := by
  unfold nonNumericCountry at hx
  simp [cmpRows, strPairCmp, hx]

theorem nonpos_ofInt (c : Int) : jsNumNonpos (.num (.ofInt c)) = true ↔ c ≤ 0 := by
  simp [jsNumNonpos, Frac.isPos, Frac.ofInt]

theorem rowLeAsc_iff (x y : Row) (hx : nonNumericCountry x) :
    rowLe .country "asc" x y = true ↔ strCmpJS x.country y.country ≤ 0 := by
  unfold rowLe cmpDirected
  rw [if_pos rfl, cmp_country x y hx]
  exact nonpos_ofInt _

theorem rowLeDesc_iff (x y : Row) (hx : nonNumericCountry x) :
    rowLe .country "desc" x y = true ↔ strCmpJS y.country x.country ≤ 0 := by
  unfold rowLe cmpDirected
  rw [if_neg (by decide), cmp_country x y hx]
  have hsw := strCmpJS_swap x.country y.country
  rw [hsw]
  simp [JSNum.neg, Frac.neg, Frac.ofInt, jsNumNonpos, Frac.isPos]

theorem pairwise_country_inj (data : List Row)
    (hdist : data.Pairwise (fun x y => x.country ≠ y.country)) :
    ∀ x ∈ data, ∀ y ∈ data, x.country = y.country → x = y := by
  induction data with
  | nil => intro x hx; simp at hx
  | cons a t ih =>
    intro x hx y hy hc
    have hhead := (List.pairwise_cons.mp hdist).1
    have htail := (List.pairwise_cons.mp hdist).2
    rcases List.mem_cons.mp hx with rfl | hx2
    · rcases List.mem_cons.mp hy with rfl | hy2
      · rfl
      · exact absurd hc (hhead y hy2)
    · rcases List.mem_cons.mp hy with rfl | hy2
      · exact absurd hc.symm (hhead x hx2)
      · exact ih htail x hx2 y hy2 hc

/-- C7: `sortData` is a stable sort; sorting by the country column
ascending twice yields the same order as sorting once (proved for every
row list); and sorting ascending then descending yields the exact
reversal of the ascending order — amended: the reversal additionally
requires the pairwise-distinct countries to be non-numeric strings,
because distinct country strings that coerce to equal numbers (such as
`"1"` and `"01"`) tie in the comparator, and a stable sort leaves ties
in input order in both directions (see the counterexample). -/
theorem c7_sort_stability (data : List Row) :
    sortData (sortData data .country "asc") .country "asc"
      = sortData data .country "asc"
    ∧ ((∀ x ∈ data, nonNumericCountry x) →
       data.Pairwise (fun x y => x.country ≠ y.country) →
       sortData data .country "desc" = (sortData data .country "asc").reverse) := by
  constructor
  · exact stableSort_idem _ (rowLe_total .country "asc") data
  · intro hnn hdist
    have hinj := pairwise_country_inj data hdist
    unfold sortData
    set leA := rowLe .country "asc" with hleA
    set leD := rowLe .country "desc" with hleD
    set S := stableSort leA data with hS
    set T := stableSort leD data with hT
    have hSperm : S.Perm data := stableSort_perm leA data
    have hTperm : T.Perm data := stableSort_perm leD data
    have hSmem : ∀ x ∈ S, x ∈ data := fun x hx => hSperm.subset hx
    have hTmem : ∀ x ∈ T, x ∈ data := fun x hx => hTperm.subset hx
    have chainS : S.Chain' (fun x y => leA x y = true) :=
      chain_stableSort leA (rowLe_total .country "asc") data
    have chainT : T.Chain' (fun x y => leD x y = true) :=
      chain_stableSort leD (rowLe_total .country "desc") data
    have PA : S.Pairwise (fun x y => leA x y = true) := by
      refine chain_pairwise S chainS ?_
      intro x hx y hy z hz pxy pyz
      rw [hleA, rowLeAsc_iff x y (hnn x (hSmem x hx))] at pxy
      rw [hleA, rowLeAsc_iff y z (hnn y (hSmem y hy))] at pyz
      rw [hleA, rowLeAsc_iff x z (hnn x (hSmem x hx))]
      exact strCmpJS_trans pxy pyz
    have PD : T.Pairwise (fun x y => leD x y = true) := by
      refine chain_pairwise T chainT ?_
      intro x hx y hy z hz pxy pyz
      rw [hleD, rowLeDesc_iff x y (hnn x (hTmem x hx))] at pxy
      rw [hleD, rowLeDesc_iff y z (hnn y (hTmem y hy))] at pyz
      rw [hleD, rowLeDesc_iff x z (hnn x (hTmem x hx))]
      exact strCmpJS_trans pyz pxy
    have PR : S.reverse.Pairwise (fun x y => leD x y = true) := by
      rw [List.pairwise_reverse]
      refine PA.imp_of_mem ?_
      intro a b ha hb hab
      rw [hleA, rowLeAsc_iff a b (hnn a (hSmem a ha))] at hab
      rw [hleD, rowLeDesc_iff b a (hnn b (hSmem b hb))]
      exact hab
    have hperm : T.Perm S.reverse :=
      hTperm.trans (hSperm.symm.trans (List.reverse_perm S).symm)
    refine pairwise_perm_unique T S.reverse hperm PD PR ?_
    intro x hx y hy pxy pyx
    rw [hleD, rowLeDesc_iff x y (hnn x (hTmem x hx))] at pxy
    rw [hleD, rowLeDesc_iff y x (hnn y (hTmem y hy))] at pyx
    have hzero : strCmpJS x.country y.country = 0 := by
      have := strCmpJS_swap x.country y.country
      omega
    exact hinj x (hTmem x hx) y (hTmem y hy) ((strCmpJS_eq_zero_iff _ _).mp hzero)

/-- A bare row carrying only a country string, for the sorting
counterexamples and witnesses. -/
def rowOf (c : String) : Row :=
  ⟨c, 0, 0, "0", "0", "", jnum 0, jnum 0, jnum 0, jnum 0, jnum 0, jnum 0⟩

/-- C7 counterexample: the countries `"1"` and `"01"` are pairwise
distinct strings, but both coerce to the number 1, so the comparator
ties and the stable sort leaves them in input order under both
directions — descending is not the reversal of ascending. -/
theorem c7_counterexample :
    ¬ (sortData [rowOf "1", rowOf "01"] .country "desc"
        = (sortData [rowOf "1", rowOf "01"] .country "asc").reverse) := by
  decide

/-- C7 witness: three rows with the distinct non-numeric countries
`"b"`, `"a"`, `"c"`: ascending sorting is idempotent and descending is
the reversal of ascending. -/
theorem c7_sort_stability_witness :
    sortData (sortData [rowOf "b", rowOf "a", rowOf "c"] .country "asc")
        .country "asc"
      = sortData [rowOf "b", rowOf "a", rowOf "c"] .country "asc"
    ∧ sortData [rowOf "b", rowOf "a", rowOf "c"] .country "desc"
      = (sortData [rowOf "b", rowOf "a", rowOf "c"] .country "asc").reverse := by
  have h := c7_sort_stability [rowOf "b", rowOf "a", rowOf "c"]
  refine ⟨h.1, h.2 ?_ ?_⟩
  · intro x hx
    unfold nonNumericCountry
    fin_cases hx <;> decide
  · decide

theorem numericCoerce_not_nan (v : JSVal) : (numericCoerce v).isNaN = false := by
  unfold numericCoerce
  by_cases h : (valToNum v).isNaN = true
  · rw [if_pos h]
    cases hx : valParseFloat v with
    | num q =>
      by_cases hq : q.isZero = true
      · simp [JSNum.isNaN, hq]
      · simp [JSNum.isNaN, hq]
    | inf => rfl
    | negInf => rfl
    | nan => rfl
  · rw [if_neg h]
    exact Bool.not_eq_true _ ▸ (Bool.eq_false_iff.mpr h)

/-- C9 counterexample: the claim asserts that for some pair of rows a
numeric-typed column yields non-numeric (`NaN`) coerced values and the
comparator then falls back to string comparison.  No such pair exists:
the coercion `isNaN(x) ? parseFloat(x) || 0 : +x` can never produce
`NaN` (`|| 0` replaces it), so the fallback condition of line 118 is
false on the numeric branch for every pair of rows. -/
theorem c9_counterexample :
    ¬ ∃ (a b : Row) (col : Column), col ∈ numericColumns ∧
      ((numericCoerce (rowField a col)).isNaN
        || (numericCoerce (rowField b col)).isNaN) = true := by
  rintro ⟨a, b, col, _, h⟩
  rw [numericCoerce_not_nan, numericCoerce_not_nan] at h
  cases h

/-- C9 (amended): for every pair of rows and every numeric-typed column,
the coerced values are numbers (never `NaN`, since a failed `parseFloat`
is defaulted to 0 by `|| 0`), so the comparator always performs the
numeric comparison `valueA - valueB`; the string-comparison fallback of
line 118 is unreachable for numeric-typed columns. -/
theorem c9_numeric_columns_never_fallback (a b : Row) (col : Column)
    (hcol : col ∈ numericColumns) :
    cmpRows col a b
      = JSNum.sub (numericCoerce (rowField a col)) (numericCoerce (rowField b col)) := by
  have h1 := numericCoerce_not_nan (rowField a col)
  have h2 := numericCoerce_not_nan (rowField b col)
  fin_cases hcol <;>
    simp_all [cmpRows, numPairCmp]

/-- C9 witness: two rows with malformed values in the numeric column
`totalCases` (a garbage string and `undefined`): the comparator still
takes the numeric path. -/
theorem c9_numeric_columns_never_fallback_witness :
    cmpRows .totalCases
        { rowOf "A" with totalCases := .str "garbage" }
        { rowOf "B" with totalCases := .undefv }
      = JSNum.sub
          (numericCoerce (rowField { rowOf "A" with totalCases := .str "garbage" } .totalCases))
          (numericCoerce (rowField { rowOf "B" with totalCases := .undefv } .totalCases)) :=
  c9_numeric_columns_never_fallback _ _ .totalCases (by decide)

/-! ### Absence of mutation in `sortData` (C10) -/

/-- A heap of arrays: `sortData` runs with its argument held in a store
cell; `const sortedData = [...data]` allocates a fresh cell holding a
copy, `sortedData.sort(...)` mutates only that fresh cell, and the new
cell's index is returned. -/
def sortDataHeap (store : List (List Row)) (ref : ℕ) (column : Column)
    (direction : String) : List (List Row) × ℕ :=
  let arr := store.getD ref []
  let newRef := store.length
  let store1 := store ++ [arr]
  let store2 := store1.set newRef (sortData arr column direction)
  (store2, newRef)

/-- C10: `sortData` does not mutate its argument: it returns a newly
allocated array (a reference distinct from the input's), after the call
every pre-existing cell — in particular the input array — holds exactly
the elements it held before, in the same order, and the new cell holds
the sorted copy. -/
theorem c10_sortData_no_mutation (store : List (List Row)) (ref : ℕ)
    (column : Column) (direction : String) (h : ref < store.length) :
    (sortDataHeap store ref column direction).2 ≠ ref
    ∧ (∀ i, i < store.length →
        (sortDataHeap store ref column direction).1[i]? = store[i]?)
    ∧ (sortDataHeap store ref column direction).1[ref]? = some (store.getD ref [])
    ∧ (sortDataHeap store ref column direction).1[(sortDataHeap store ref column direction).2]?
        = some (sortData (store.getD ref []) column direction) := by
  refine ⟨Nat.ne_of_gt h, ?_, ?_, ?_⟩
  · intro i hi
    show ((store ++ [store.getD ref []]).set store.length _)[i]? = store[i]?
    rw [List.getElem?_set_ne (by omega), List.getElem?_append, if_pos hi]
  · show ((store ++ [store.getD ref []]).set store.length _)[ref]? = _
    rw [List.getElem?_set_ne (by omega), List.getElem?_append, if_pos h]
    simp [List.getD_eq_getElem?_getD, List.getElem?_eq_getElem h]
  · show ((store ++ [store.getD ref []]).set store.length _)[store.length]? = _
    rw [List.getElem?_set_self (by simp)]

/-- C10 witness: a concrete two-cell store; sorting the array in cell 0
returns cell 2 with the sorted copy and leaves cell 0 untouched. -/
theorem c10_sortData_no_mutation_witness :
    (sortDataHeap [[rowOf "b", rowOf "a"], []] 0 .country "asc").2 ≠ 0
    ∧ (sortDataHeap [[rowOf "b", rowOf "a"], []] 0 .country "asc").1[0]?
        = some [rowOf "b", rowOf "a"]
    ∧ (sortDataHeap [[rowOf "b", rowOf "a"], []] 0 .country "asc").1[2]?
        = some [rowOf "a", rowOf "b"] := by
  have h := c10_sortData_no_mutation [[rowOf "b", rowOf "a"], []] 0 .country "asc"
    (by decide)
  refine ⟨h.1, ?_, ?_⟩
  · exact h.2.2.1.trans (by decide)
  · exact h.2.2.2.trans (by decide)

/-! ### Pagination (src/App.js lines 342 and 690-692) -/

/-- `Array.prototype.slice(s, e)` for nonnegative indices: the elements
with indices in `[s, e)`. -/
def jsSlice {β : Type} (l : List β) (s e : ℕ) : List β := (l.take e).drop s

/-- The table-body slice
`sortedFilteredData.slice((currentPage - 1) * itemsPerPage, currentPage * itemsPerPage)`
(App.js line 690). -/
def pageRows (rows : List Row) (currentPage itemsPerPage : ℕ) : List Row :=
  jsSlice rows ((currentPage - 1) * itemsPerPage) (currentPage * itemsPerPage)

/-- `Math.ceil(filteredData.length / itemsPerPage)` (App.js line 342)
over naturals, for the positive `itemsPerPage` the app enforces
(`min="1"` on the input). -/
def totalPages (count itemsPerPage : ℕ) : ℕ :=
  (count + itemsPerPage - 1) / itemsPerPage

/-- C8: for every row list, `itemsPerPage > 0` and 1-indexed
`currentPage`, the pagination slice holds exactly the rows with indices
`[(currentPage-1)*itemsPerPage, currentPage*itemsPerPage)` — an
out-of-range page gives an empty slice, never an error — and
`totalPages` is the ceiling of `count / itemsPerPage`, characterized by
`count ≤ itemsPerPage * totalPages < count + itemsPerPage`. -/
theorem c8_pagination (rows : List Row) (p ipp : ℕ) (hp : 1 ≤ p) (hi : 1 ≤ ipp) :
    (∀ i, i < ipp → (pageRows rows p ipp)[i]? = rows[(p - 1) * ipp + i]?)
    ∧ (pageRows rows p ipp).length = min ipp (rows.length - (p - 1) * ipp)
    ∧ rows.length ≤ ipp * totalPages rows.length ipp
    ∧ ipp * totalPages rows.length ipp < rows.length + ipp := by
  refine ⟨?_, ?_, ?_, ?_⟩
  · intro i hi2
    unfold pageRows jsSlice
    rw [List.getElem?_drop, List.getElem?_take]
    have hlt : (p - 1) * ipp + i < p * ipp := by
      have hpe : (p - 1) * ipp + ipp = p * ipp := by
        have h1 : p - 1 + 1 = p := Nat.succ_pred_eq_of_pos hp
        calc (p - 1) * ipp + ipp = ((p - 1) + 1) * ipp := by ring
          _ = p * ipp := by rw [h1]
      omega
    rw [if_pos hlt]
  · unfold pageRows jsSlice
    rw [List.length_drop, List.length_take]
    have hpe : (p - 1) * ipp + ipp = p * ipp := by
      have : p - 1 + 1 = p := Nat.succ_pred_eq_of_pos hp
      calc (p - 1) * ipp + ipp = ((p - 1) + 1) * ipp := by ring
        _ = p * ipp := by rw [this]
    omega
  · unfold totalPages
    have hmod : (rows.length + ipp - 1) % ipp < ipp := Nat.mod_lt _ (by omega)
    have hdiv := Nat.div_add_mod (rows.length + ipp - 1) ipp
    set q := (rows.length + ipp - 1) / ipp with hq
    set r := (rows.length + ipp - 1) % ipp with hr
    set P := ipp * q with hP
    omega
  · unfold totalPages
    have hmod : (rows.length + ipp - 1) % ipp < ipp := Nat.mod_lt _ (by omega)
    have hdiv := Nat.div_add_mod (rows.length + ipp - 1) ipp
    set q := (rows.length + ipp - 1) / ipp with hq
    set r := (rows.length + ipp - 1) % ipp with hr
    set P := ipp * q with hP
    omega

/-- C8 witness: 23 filtered rows with 10 items per page give 3 total
pages, page 3 holds exactly 3 rows, page 4 is empty (no error), and the
first row of page 3 is row 20 of the input. -/
theorem c8_pagination_witness :
    totalPages 23 10 = 3
    ∧ (pageRows (List.replicate 23 defaultRow) 3 10).length = 3
    ∧ (pageRows (List.replicate 23 defaultRow) 4 10).length = 0
    ∧ (pageRows (List.replicate 23 defaultRow) 3 10)[0]?
        = (List.replicate 23 defaultRow)[20]? := by
  have h3 := c8_pagination (List.replicate 23 defaultRow) 3 10 (by decide) (by decide)
  have h4 := c8_pagination (List.replicate 23 defaultRow) 4 10 (by decide) (by decide)
  refine ⟨by decide, h3.2.1.trans (by decide), h4.2.1.trans (by decide), ?_⟩
  exact (h3.1 0 (by decide)).trans (by decide)

end Covid
